import Mathlib

/-!
Shallow embedding of `influxdb.go` from janmejay/go-metrics-influxdb.

The Go reporter drains a metrics registry on each tick, translates each
metric into InfluxDB points, and writes the points in bounded batches.
Go `map[string]string` values are modelled as association lists with
unique keys; because the claims under study are about *aliasing* of the
shared base tag map, tag maps live in an explicit store (a heap of tag
maps addressed by `Nat`), and a point records the address of its tag map
exactly as a Go `Point` holds a reference to a Go map.  `time.Time` is
modelled as nanoseconds since the zero time (`Nat`), `time.Duration` as
`Int` nanoseconds, and `float64` snapshot statistics as `ℚ` (the reporter
performs no float arithmetic of its own, it only copies snapshot values).
-/

namespace GoMetricsInfluxdb

/-- Go `map[string]string`, as an association list (unique keys when it
comes from a real Go map). -/
abbrev TagMap := List (String × String)

/-- Go map assignment `m[k] = v`: replace the binding if the key is
present, otherwise add it. -/
def mapInsert (m : TagMap) (k v : String) : TagMap :=
  if m.any (fun p => p.1 = k) then
    m.map (fun p => if p.1 = k then (k, v) else p)
  else
    m ++ [(k, v)]

/-- The copy loop `for tk, tv := range tags { m[tk] = tv }` of
`bucketTags`, starting from the empty map `m := map[string]string{}`. -/
def copyInto (tags : TagMap) : TagMap :=
  tags.foldl (fun m p => mapInsert m p.1 p.2) []

/-- The map built by `bucketTags(bucket, tags)`: a copy of `tags` with
`m["bucket"] = bucket` applied last. -/
def bucketTagsMap (bucket : String) (tags : TagMap) : TagMap :=
  mapInsert (copyInto tags) "bucket" bucket

/-- A heap of tag maps.  Addresses are indices; Go's `map[string]string{}`
literal allocates a fresh map, modelled by appending to the heap. -/
structure Store where
  maps : List TagMap
deriving DecidableEq

/-- Dereference an address (addresses produced by the embedding are
always in bounds). -/
def Store.get (s : Store) (a : Nat) : TagMap :=
  (s.maps.getD a [])

/-- Allocate a fresh map, returning the new store and its address. -/
def Store.alloc (s : Store) (m : TagMap) : Store × Nat :=
  (⟨s.maps ++ [m]⟩, s.maps.length)

/-- In-place Go map assignment `m[k] = v` through a reference: mutates
the map stored at address `a`. -/
def Store.insertTag (s : Store) (a : Nat) (k v : String) : Store :=
  ⟨s.maps.set a (mapInsert (s.get a) k v)⟩

/-- `bucketTags(bucket, tags)` where `tags` is a map reference: reads the
map at `tagsAddr`, builds a fresh copy extended with the `bucket` entry,
and allocates it. -/
def bucketTags (bucket : String) (tagsAddr : Nat) (s : Store) : Store × Nat :=
  s.alloc (bucketTagsMap bucket (s.get tagsAddr))

/-- A Go `interface{}` field value: `int64` (counter counts, gauge
values) or `float64` (everything else). -/
inductive FieldValue where
  | i (n : Int)
  | f (q : ℚ)
deriving DecidableEq

/-- `client.Point`: the tag set is held by reference (`tagsAddr`). -/
structure Point where
  measurement : String
  tagsAddr : Nat
  fields : List (String × FieldValue)
  time : Nat
deriving DecidableEq

instance : Inhabited Point := ⟨⟨"", 0, [], 0⟩⟩

/-- A metric snapshot, one constructor per arm of the type switch in
`send`.  Percentile lists `ps` model the result of
`Snapshot().Percentiles([]float64{0.5, 0.75, 0.95, 0.99})` (the registry
contract returns the four requested quantiles in order).  `other` is any
registry value not matched by the switch, which `send` skips. -/
inductive Metric where
  | counter (count : Int)
  | gauge (value : Int)
  | gaugeFloat64 (value : ℚ)
  | histogram (count : Int) (max : Int) (mean : ℚ) (min : Int)
      (stddev : ℚ) (variance : ℚ) (ps : List ℚ)
  | meter (count : Int) (rate1 : ℚ) (rate5 : ℚ) (rateMean : ℚ)
  | timer (count : Int) (max : Int) (mean : ℚ) (min : Int)
      (stddev : ℚ) (variance : ℚ) (ps : List ℚ)
      (rate1 : ℚ) (rate5 : ℚ) (rateMean : ℚ)
  | other
deriving DecidableEq

/-- The ten-entry `fields` literal of the histogram arm (`ps[i]` reads
the percentile slice positionally). -/
def histogramFields (count : Int) (max : Int) (mean : ℚ) (min : Int)
    (stddev : ℚ) (variance : ℚ) (ps : List ℚ) : List (String × ℚ) :=
  [("count", (count : ℚ)), ("max", (max : ℚ)), ("mean", mean),
   ("min", (min : ℚ)), ("stddev", stddev), ("variance", variance),
   ("p50", ps.getD 0 0), ("p75", ps.getD 1 0),
   ("p95", ps.getD 2 0), ("p99", ps.getD 3 0)]

/-- The four-entry `fields` literal of the meter arm. -/
def meterFields (count : Int) (rate1 rate5 rateMean : ℚ) : List (String × ℚ) :=
  [("count", (count : ℚ)), ("m1", rate1), ("m5", rate5), ("mean", rateMean)]

/-- The thirteen-entry `fields` literal of the timer arm. -/
def timerFields (count : Int) (max : Int) (mean : ℚ) (min : Int)
    (stddev : ℚ) (variance : ℚ) (ps : List ℚ)
    (rate1 rate5 rateMean : ℚ) : List (String × ℚ) :=
  [("count", (count : ℚ)), ("max", (max : ℚ)), ("mean", mean),
   ("min", (min : ℚ)), ("stddev", stddev), ("variance", variance),
   ("p50", ps.getD 0 0), ("p75", ps.getD 1 0),
   ("p95", ps.getD 2 0), ("p99", ps.getD 3 0),
   ("m1", rate1), ("m5", rate5), ("meanrate", rateMean)]

/-- The `for k, v := range fields` loop of the histogram/meter/timer
arms: one point per field entry, each with a freshly allocated
`bucketTags(k, r.tags)` tag map and the single field
`"<name>.<suffix>" = v`. -/
def expandFields (measurement : String) (suffix : String) (name : String)
    (baseAddr : Nat) (now : Nat) :
    List (String × ℚ) → Store → Store × List Point
  | [], s => (s, [])
  | (k, v) :: rest, s =>
    let sa := bucketTags k baseAddr s
    let p : Point :=
      { measurement := measurement, tagsAddr := sa.2,
        fields := [(name ++ "." ++ suffix, FieldValue.f v)], time := now }
    let sr := expandFields measurement suffix name baseAddr now rest sa.1
    (sr.1, p :: sr.2)

/-- One arm of the type switch in `send`: the points appended for a
single registry entry `(name, metric)`.  `baseAddr` is the address of
the reporter's shared `r.tags` map; counter/gauge/gaugeFloat64 points
store that address directly (Go `Tags: r.tags`), the multi-field kinds
go through `bucketTags`. -/
def metricPoints (measurement : String) (baseAddr : Nat) (now : Nat)
    (name : String) : Metric → Store → Store × List Point
  | .counter count, s =>
    (s, [{ measurement := measurement, tagsAddr := baseAddr,
           fields := [(name ++ ".count", FieldValue.i count)], time := now }])
  | .gauge value, s =>
    (s, [{ measurement := measurement, tagsAddr := baseAddr,
           fields := [(name ++ ".gauge", FieldValue.i value)], time := now }])
  | .gaugeFloat64 value, s =>
    (s, [{ measurement := measurement, tagsAddr := baseAddr,
           fields := [(name ++ ".gauge", FieldValue.f value)], time := now }])
  | .histogram count max mean min stddev variance ps, s =>
    expandFields measurement "histogram" name baseAddr now
      (histogramFields count max mean min stddev variance ps) s
  | .meter count rate1 rate5 rateMean, s =>
    expandFields measurement "meter" name baseAddr now
      (meterFields count rate1 rate5 rateMean) s
  | .timer count max mean min stddev variance ps rate1 rate5 rateMean, s =>
    expandFields measurement "timer" name baseAddr now
      (timerFields count max mean min stddev variance ps rate1 rate5 rateMean) s
  | .other, s => (s, [])

/-- Reporter configuration (the fields of `struct reporter` that `send`
reads; `tags` is the *content* of the base tag map, which the embedding
places at store address 0). -/
structure Reporter where
  interval : Int
  align : Bool
  database : String
  measurement : String
  tags : TagMap
  maxBatchSize : Int
deriving DecidableEq

/-- `time.Time.Truncate(d)`: round down to a multiple of `d` since the
zero time; `d ≤ 0` leaves the time unchanged. -/
def goTruncate (t : Nat) (d : Int) : Nat :=
  if d ≤ 0 then t else (t / d.toNat) * d.toNat

/-- The `now` captured at the top of `send`: truncated to the interval
when `r.align` is set. -/
def alignedNow (r : Reporter) (wallNow : Nat) : Nat :=
  if r.align then goTruncate wallNow r.interval else wallNow

/-- The accumulation phase of `send`: `r.reg.Each` visits the registry
entries in order and the type switch appends points.  The shared base
tag map starts alone in the store at address 0. -/
def sendPoints (r : Reporter) (reg : List (String × Metric))
    (wallNow : Nat) : Store × List Point :=
  let now := alignedNow r wallNow
  reg.foldl
    (fun acc entry =>
      let out := metricPoints r.measurement 0 now entry.1 entry.2 acc.1
      (out.1, acc.2 ++ out.2))
    (⟨[r.tags]⟩, [])

/-- The tag map a point's reference resolves to. -/
def pointTags (s : Store) (p : Point) : TagMap :=
  s.get p.tagsAddr

/-- The point's `bucket` tag, if any. -/
def pointBucket (s : Store) (p : Point) : Option String :=
  (pointTags s p).lookup "bucket"

/-- The batching loop of `send`: `for i := 0; i < len(pts); i += B`
slices `pts[i:min(i+B, len(pts))]`.  `B = 0` only arises with an empty
point list (when `maxBatchSize ≤ 0`, `B` is set to `len(pts)`), where
the loop body never runs. -/
def chunkList (B : Nat) (pts : List Point) : List (List Point) :=
  if hB : B = 0 then []
  else if hp : pts = [] then []
  else pts.take B :: chunkList B (pts.drop B)
termination_by pts.length
decreasing_by
  have h1 : 0 < B := Nat.pos_of_ne_zero hB
  have h2 : 0 < pts.length := List.length_pos.mpr hp
  simp only [List.length_drop]
  omega

/-- The effective batch size and batch list of one `send` tick:
`maxBatchSize ≤ 0` is replaced by `len(pts)`. -/
def sendBatches (r : Reporter) (pts : List Point) : List (List Point) :=
  chunkList (if r.maxBatchSize ≤ 0 then pts.length else r.maxBatchSize.toNat) pts

/-- Outcome of the write loop: which batch indices were passed to
`client.Write` (in call order), the points of the batches that were
written successfully, and whether `send` returned `nil`. -/
structure WriteOutcome where
  attempted : List Nat
  written : List Point
  ok : Bool
deriving DecidableEq

/-- The write loop of `send` with fail-fast early return.  `writeOk i`
tells whether the `i`-th call to `client.Write` succeeds (the transport
client is an external collaborator). -/
def writeLoop (writeOk : Nat → Bool) (i : Nat) :
    List (List Point) → WriteOutcome
  | [] => ⟨[], [], true⟩
  | b :: rest =>
    if writeOk i then
      let o := writeLoop writeOk (i + 1) rest
      ⟨i :: o.attempted, b ++ o.written, o.ok⟩
    else
      ⟨[i], [], false⟩

/-- The whole `send` operation of one tick: accumulate points, batch
them, write the batches fail-fast. -/
def send (r : Reporter) (reg : List (String × Metric)) (wallNow : Nat)
    (writeOk : Nat → Bool) : WriteOutcome :=
  writeLoop writeOk 0 (sendBatches r (sendPoints r reg wallNow).2)

/-- `InfluxDBWithTags` control flow: parse the URL (log and return on
failure), construct the client (log and return on failure), then enter
the run loop.  URL parsing and client construction are external
collaborators, abstracted to their success bits. -/
structure StartResult where
  logs : List String
  loopStarted : Bool
deriving DecidableEq

def influxDBWithTags (parseOk : Bool) (makeClientOk : Bool) : StartResult :=
  if !parseOk then
    ⟨["unable to parse InfluxDB url"], false⟩
  else if !makeClientOk then
    ⟨["unable to make InfluxDB client"], false⟩
  else
    ⟨[], true⟩

/-- Whether a metric kind's arm of the type switch builds its point tag
sets through `bucketTags` (histogram/meter/timer) or stores the shared
`r.tags` reference directly (counter/gauge/gaugeFloat64). -/
def Metric.usesBucketTags : Metric → Bool
  | .histogram .. => true
  | .meter .. => true
  | .timer .. => true
  | _ => false

/-- Observation of one tick's output: each point's `bucket` tag (resolved
through the final store) paired with its field set. -/
def taggedFields (out : Store × List Point) :
    List (Option String × List (String × FieldValue)) :=
  out.2.map (fun p => (pointBucket out.1 p, p.fields))

/-! Concrete configurations and registries used to instantiate the
theorems below on closed inputs. -/

def exTags : TagMap := [("host", "a")]

def exReporter : Reporter :=
  { interval := 10, align := false, database := "db", measurement := "msr",
    tags := exTags, maxBatchSize := 0 }

def exAlignReporter : Reporter :=
  { interval := 10, align := true, database := "db", measurement := "msr",
    tags := exTags, maxBatchSize := 0 }

def exBatch2Reporter : Reporter :=
  { interval := 10, align := false, database := "db", measurement := "msr",
    tags := exTags, maxBatchSize := 2 }

def exBatch1Reporter : Reporter :=
  { interval := 10, align := false, database := "db", measurement := "msr",
    tags := exTags, maxBatchSize := 1 }

/-- A base tag map that already carries a `bucket` entry. -/
def exBucketReporter : Reporter :=
  { interval := 10, align := false, database := "db", measurement := "msr",
    tags := [("bucket", "z")], maxBatchSize := 0 }

def exCounterReg : List (String × Metric) := [("requests", Metric.counter 7)]

def exThreeCounters : List (String × Metric) :=
  [("a", Metric.counter 1), ("b", Metric.counter 2), ("c", Metric.counter 3)]

def exMeterReg : List (String × Metric) := [("m", Metric.meter 1 2 3 4)]

def exHistReg : List (String × Metric) :=
  [("h", Metric.histogram 1 2 3 4 5 6 [7, 8, 9, 10])]

/-! ### Association-list map lemmas -/

theorem lookup_map_replaceKey (k v key : String) (hne : key ≠ k) (l : TagMap) :
    (l.map (fun p => if p.1 = k then (k, v) else p)).lookup key = l.lookup key := by
  induction l with
  | nil => rfl
  | cons p tl ih =>
    obtain ⟨a, b⟩ := p
    by_cases h : a = k
    · subst h
      have hb : (key == a) = false := beq_eq_false_iff_ne.mpr hne
      simpa [List.lookup_cons, hb] using ih
    · by_cases hk : key = a
      · subst hk
        simp only [List.map_cons, if_neg h, List.lookup_cons_self]
      · have hb : (key == a) = false := beq_eq_false_iff_ne.mpr hk
        simp only [List.map_cons, if_neg h, List.lookup_cons, hb]
        exact ih

theorem lookup_map_replaceKey_self (k v : String) (l : TagMap)
    (h : l.any (fun p => p.1 = k) = true) :
    (l.map (fun p => if p.1 = k then (k, v) else p)).lookup k = some v := by
  induction l with
  | nil => simp at h
  | cons p tl ih =>
    obtain ⟨a, b⟩ := p
    by_cases ha : a = k
    · subst ha
      simp [List.lookup_cons]
    · have h' : tl.any (fun p => p.1 = k) = true := by
        simp only [List.any_cons, Bool.or_eq_true] at h
        rcases h with h | h
        · exact absurd (by simpa using h) ha
        · exact h
      have hb : (k == a) = false := beq_eq_false_iff_ne.mpr (Ne.symm ha)
      simp only [List.map_cons, if_neg ha, List.lookup_cons, hb]
      exact ih h'

/-- Go map lookup after `m[k] = v`: the key `k` now maps to `v`, every
other key is unchanged. -/
theorem mapInsert_lookup (m : TagMap) (k v key : String) :
    (mapInsert m k v).lookup key = if key = k then some v else m.lookup key := by
  unfold mapInsert
  by_cases hany : m.any (fun p => p.1 = k) = true
  · rw [if_pos hany]
    by_cases hk : key = k
    · subst hk
      rw [if_pos rfl, lookup_map_replaceKey_self _ _ _ hany]
    · rw [if_neg hk, lookup_map_replaceKey _ _ _ hk]
  · rw [if_neg hany]
    rw [List.lookup_append]
    by_cases hk : key = k
    · subst hk
      have hnone : m.lookup key = none := by
        rw [List.lookup_eq_none_iff]
        intro p hp
        have := List.any_eq_false.mp (Bool.eq_false_iff.mpr hany) p hp
        simp only [decide_eq_true_eq] at this
        simp [bne_iff_ne]
        exact fun h => this h.symm
      simp [hnone]
    · have hb : (key == k) = false := beq_eq_false_iff_ne.mpr hk
      simp [List.lookup_cons, hb, hk]

theorem any_key_eq_false (m : TagMap) (k : String)
    (h : ∀ q ∈ m, q.1 ≠ k) : m.any (fun p => p.1 = k) = false := by
  simp only [List.any_eq_false, decide_eq_true_eq]
  exact h

/-- The copy loop of `bucketTags`, generalized over its accumulator:
folding `mapInsert` over entries whose keys are fresh appends them. -/
theorem foldl_mapInsert_fresh (l : TagMap) :
    ∀ acc : TagMap, (l.map Prod.fst).Nodup →
    (∀ p ∈ l, ∀ q ∈ acc, q.1 ≠ p.1) →
    l.foldl (fun m p => mapInsert m p.1 p.2) acc = acc ++ l := by
  induction l with
  | nil => intro acc _ _; simp
  | cons p tl ih =>
    intro acc hnd hfresh
    simp only [List.map_cons, List.nodup_cons] at hnd
    obtain ⟨hp1, hnd'⟩ := hnd
    have hfalse := any_key_eq_false acc p.1
      (fun q hq => hfresh p (List.mem_cons_self p tl) q hq)
    have hstep : mapInsert acc p.1 p.2 = acc ++ [p] := by
      unfold mapInsert
      rw [hfalse]
      simp
    have hcond : ∀ p' ∈ tl, ∀ q ∈ acc ++ [p], q.1 ≠ p'.1 := by
      intro p' hp' q hq
      rcases List.mem_append.mp hq with hq | hq
      · exact hfresh p' (List.mem_cons_of_mem _ hp') q hq
      · rcases List.mem_singleton.mp hq with rfl
        intro h
        apply hp1
        rw [h]
        exact List.mem_map_of_mem Prod.fst hp'
    simp only [List.foldl_cons, hstep, ih (acc ++ [p]) hnd' hcond]
    simp

/-- With unique keys (a real Go map), the copy loop reproduces the map. -/
theorem copyInto_eq_self (m : TagMap) (h : (m.map Prod.fst).Nodup) :
    copyInto m = m := by
  unfold copyInto
  rw [foldl_mapInsert_fresh m [] h (by simp)]
  simp

/-! ### Store lemmas -/

theorem Store.get_insertTag_ne (s : Store) (a b : Nat) (k v : String)
    (h : a ≠ b) : (s.insertTag a k v).get b = s.get b := by
  simp [Store.insertTag, Store.get, List.getElem?_set_ne h]

theorem Store.get_alloc_lt (s : Store) (m : TagMap) (a : Nat)
    (ha : a < s.maps.length) : (s.alloc m).1.get a = s.get a := by
  simp [Store.alloc, Store.get, List.getElem?_append_left ha]

theorem Store.get_alloc_self (s : Store) (m : TagMap) :
    (s.alloc m).1.get (s.alloc m).2 = m := by
  simp [Store.alloc, Store.get, List.getElem?_append_right (Nat.le_refl _)]

theorem Store.length_alloc (s : Store) (m : TagMap) :
    (s.alloc m).1.maps.length = s.maps.length + 1 := by
  simp [Store.alloc]

/-! ### expandFields lemmas -/

theorem expandFields_length_le (meas sfx name : String) (baseAddr now : Nat) :
    ∀ (fields : List (String × ℚ)) (s : Store),
    s.maps.length ≤ (expandFields meas sfx name baseAddr now fields s).1.maps.length := by
  intro fields
  induction fields with
  | nil => intro s; simp [expandFields]
  | cons kv rest ih =>
    intro s
    obtain ⟨k, v⟩ := kv
    calc s.maps.length ≤ s.maps.length + 1 := Nat.le_succ _
      _ = (bucketTags k baseAddr s).1.maps.length := by
          simp [bucketTags, Store.length_alloc]
      _ ≤ _ := ih ((bucketTags k baseAddr s).1)

theorem expandFields_get_preserved (meas sfx name : String) (baseAddr now : Nat) :
    ∀ (fields : List (String × ℚ)) (s : Store) (a : Nat), a < s.maps.length →
    (expandFields meas sfx name baseAddr now fields s).1.get a = s.get a := by
  intro fields
  induction fields with
  | nil => intro s a _; rfl
  | cons kv rest ih =>
    intro s a ha
    obtain ⟨k, v⟩ := kv
    have h1 : a < (bucketTags k baseAddr s).1.maps.length := by
      simp only [bucketTags, Store.length_alloc]
      omega
    calc (expandFields meas sfx name baseAddr now ((k, v) :: rest) s).1.get a
        = (expandFields meas sfx name baseAddr now rest (bucketTags k baseAddr s).1).1.get a := rfl
      _ = (bucketTags k baseAddr s).1.get a := ih _ a h1
      _ = s.get a := Store.get_alloc_lt s _ a ha

theorem expandFields_addr_ge (meas sfx name : String) (baseAddr now : Nat) :
    ∀ (fields : List (String × ℚ)) (s : Store) (p : Point),
    p ∈ (expandFields meas sfx name baseAddr now fields s).2 →
    s.maps.length ≤ p.tagsAddr := by
  intro fields
  induction fields with
  | nil => intro s p hp; simp [expandFields] at hp
  | cons kv rest ih =>
    intro s p hp
    obtain ⟨k, v⟩ := kv
    have hp' : p = { measurement := meas, tagsAddr := (bucketTags k baseAddr s).2,
                     fields := [(name ++ "." ++ sfx, FieldValue.f v)], time := now }
        ∨ p ∈ (expandFields meas sfx name baseAddr now rest (bucketTags k baseAddr s).1).2 := by
      simpa [expandFields] using hp
    rcases hp' with rfl | hp'
    · simp [bucketTags, Store.alloc]
    · calc s.maps.length ≤ (bucketTags k baseAddr s).1.maps.length := by
            simp [bucketTags, Store.length_alloc]
        _ ≤ p.tagsAddr := ih _ p hp'

theorem expandFields_time (meas sfx name : String) (baseAddr now : Nat) :
    ∀ (fields : List (String × ℚ)) (s : Store) (p : Point),
    p ∈ (expandFields meas sfx name baseAddr now fields s).2 → p.time = now := by
  intro fields
  induction fields with
  | nil => intro s p hp; simp [expandFields] at hp
  | cons kv rest ih =>
    intro s p hp
    obtain ⟨k, v⟩ := kv
    have hp' : p = { measurement := meas, tagsAddr := (bucketTags k baseAddr s).2,
                     fields := [(name ++ "." ++ sfx, FieldValue.f v)], time := now }
        ∨ p ∈ (expandFields meas sfx name baseAddr now rest (bucketTags k baseAddr s).1).2 := by
      simpa [expandFields] using hp
    rcases hp' with rfl | hp'
    · rfl
    · exact ih _ p hp'

/-- Full characterization of the points of one `for k, v := range fields`
loop, observed through the final store: each field entry `(k, v)` yields
one point tagged `bucket = k` with the single field
`"<name>.<suffix>" = v`. -/
theorem expandFields_tagged (meas sfx name : String) (baseAddr now : Nat) :
    ∀ (fields : List (String × ℚ)) (s : Store),
    (expandFields meas sfx name baseAddr now fields s).2.map
        (fun p => (((expandFields meas sfx name baseAddr now fields s).1.get
            p.tagsAddr).lookup "bucket", p.fields))
      = fields.map (fun kv => (some kv.1, [(name ++ "." ++ sfx, FieldValue.f kv.2)])) := by
  intro fields
  induction fields with
  | nil => intro s; simp [expandFields]
  | cons kv rest ih =>
    intro s
    obtain ⟨k, v⟩ := kv
    have hfin : (expandFields meas sfx name baseAddr now ((k, v) :: rest) s).1
        = (expandFields meas sfx name baseAddr now rest (bucketTags k baseAddr s).1).1 := rfl
    have hpts : (expandFields meas sfx name baseAddr now ((k, v) :: rest) s).2
        = { measurement := meas, tagsAddr := (bucketTags k baseAddr s).2,
            fields := [(name ++ "." ++ sfx, FieldValue.f v)], time := now }
          :: (expandFields meas sfx name baseAddr now rest (bucketTags k baseAddr s).1).2 := rfl
    rw [hpts, hfin, List.map_cons, List.map_cons]
    have hb : (bucketTags k baseAddr s).2 < (bucketTags k baseAddr s).1.maps.length := by
      simp [bucketTags, Store.alloc]
    have h1 : (expandFields meas sfx name baseAddr now rest (bucketTags k baseAddr s).1).1.get
        (bucketTags k baseAddr s).2 = bucketTagsMap k (s.get baseAddr) := by
      rw [expandFields_get_preserved meas sfx name baseAddr now rest _ _ hb]
      exact Store.get_alloc_self s _
    have h2 : (bucketTagsMap k (s.get baseAddr)).lookup "bucket" = some k := by
      unfold bucketTagsMap
      rw [mapInsert_lookup]
      simp
    simp only [h1, h2]
    exact congrArg _ (ih _)

/-! ### metricPoints and sendPoints lemmas -/

theorem metricPoints_time (meas : String) (baseAddr now : Nat) (name : String)
    (m : Metric) (s : Store) (p : Point)
    (hp : p ∈ (metricPoints meas baseAddr now name m s).2) : p.time = now := by
  cases m with
  | counter c =>
    have h : p = { measurement := meas, tagsAddr := baseAddr,
                   fields := [(name ++ ".count", FieldValue.i c)], time := now } := by
      simpa [metricPoints] using hp
    rw [h]
  | gauge c =>
    have h : p = { measurement := meas, tagsAddr := baseAddr,
                   fields := [(name ++ ".gauge", FieldValue.i c)], time := now } := by
      simpa [metricPoints] using hp
    rw [h]
  | gaugeFloat64 c =>
    have h : p = { measurement := meas, tagsAddr := baseAddr,
                   fields := [(name ++ ".gauge", FieldValue.f c)], time := now } := by
      simpa [metricPoints] using hp
    rw [h]
  | histogram c mx me mn sd va ps =>
    exact expandFields_time meas "histogram" name baseAddr now _ s p hp
  | meter c r1 r5 rm =>
    exact expandFields_time meas "meter" name baseAddr now _ s p hp
  | timer c mx me mn sd va ps r1 r5 rm =>
    exact expandFields_time meas "timer" name baseAddr now _ s p hp
  | other => simp [metricPoints] at hp

theorem metricPoints_bucketed_addr (meas : String) (baseAddr now : Nat)
    (name : String) (m : Metric) (s : Store)
    (hm : m.usesBucketTags = true) (p : Point)
    (hp : p ∈ (metricPoints meas baseAddr now name m s).2) :
    s.maps.length ≤ p.tagsAddr := by
  cases m with
  | histogram c mx me mn sd va ps =>
    exact expandFields_addr_ge meas "histogram" name baseAddr now _ s p hp
  | meter c r1 r5 rm =>
    exact expandFields_addr_ge meas "meter" name baseAddr now _ s p hp
  | timer c mx me mn sd va ps r1 r5 rm =>
    exact expandFields_addr_ge meas "timer" name baseAddr now _ s p hp
  | counter c => simp [Metric.usesBucketTags] at hm
  | gauge c => simp [Metric.usesBucketTags] at hm
  | gaugeFloat64 c => simp [Metric.usesBucketTags] at hm
  | other => simp [Metric.usesBucketTags] at hm

theorem metricPoints_unbucketed_addr (meas : String) (baseAddr now : Nat)
    (name : String) (m : Metric) (s : Store)
    (hm : m.usesBucketTags = false) (p : Point)
    (hp : p ∈ (metricPoints meas baseAddr now name m s).2) :
    p.tagsAddr = baseAddr := by
  cases m with
  | counter c =>
    have h : p = { measurement := meas, tagsAddr := baseAddr,
                   fields := [(name ++ ".count", FieldValue.i c)], time := now } := by
      simpa [metricPoints] using hp
    rw [h]
  | gauge c =>
    have h : p = { measurement := meas, tagsAddr := baseAddr,
                   fields := [(name ++ ".gauge", FieldValue.i c)], time := now } := by
      simpa [metricPoints] using hp
    rw [h]
  | gaugeFloat64 c =>
    have h : p = { measurement := meas, tagsAddr := baseAddr,
                   fields := [(name ++ ".gauge", FieldValue.f c)], time := now } := by
      simpa [metricPoints] using hp
    rw [h]
  | histogram c mx me mn sd va ps => simp [Metric.usesBucketTags] at hm
  | meter c r1 r5 rm => simp [Metric.usesBucketTags] at hm
  | timer c mx me mn sd va ps r1 r5 rm => simp [Metric.usesBucketTags] at hm
  | other => simp [metricPoints] at hp

theorem foldl_points_time (meas : String) (now : Nat) :
    ∀ (reg : List (String × Metric)) (acc : Store × List Point),
    (∀ p ∈ acc.2, p.time = now) →
    ∀ p ∈ (reg.foldl (fun acc entry =>
        let out := metricPoints meas 0 now entry.1 entry.2 acc.1
        (out.1, acc.2 ++ out.2)) acc).2, p.time = now := by
  intro reg
  induction reg with
  | nil => intro acc hacc p hp; exact hacc p hp
  | cons e rest ih =>
    intro acc hacc p hp
    refine ih _ ?_ p hp
    intro q hq
    have hq' : q ∈ acc.2 ∨ q ∈ (metricPoints meas 0 now e.1 e.2 acc.1).2 := by
      simpa using hq
    rcases hq' with hq' | hq'
    · exact hacc q hq'
    · exact metricPoints_time meas 0 now e.1 e.2 acc.1 q hq'

theorem sendPoints_time (r : Reporter) (reg : List (String × Metric)) (t : Nat) :
    ∀ p ∈ (sendPoints r reg t).2, p.time = alignedNow r t := by
  intro p hp
  exact foldl_points_time r.measurement (alignedNow r t) reg (⟨[r.tags]⟩, [])
    (by simp) p hp

/-! ### Batching lemmas -/

theorem chunkList_flatten (B : Nat) (hB : B ≠ 0) (pts : List Point) :
    (chunkList B pts).flatten = pts := by
  induction pts using chunkList.induct B with
  | case1 x h => exact absurd h hB
  | case2 h => simp [chunkList]
  | case3 x h hx ih =>
    rw [chunkList]
    simp only [dif_neg h, dif_neg hx, List.flatten]
    rw [ih]
    exact List.take_append_drop B x

theorem chunkList_sizes (B : Nat) (pts : List Point) :
    ∀ b ∈ chunkList B pts, b.length ≤ B := by
  induction pts using chunkList.induct B with
  | case1 x h =>
    intro b hb
    rw [chunkList] at hb
    simp [h] at hb
  | case2 h =>
    intro b hb
    rw [chunkList] at hb
    simp at hb
  | case3 x h hx ih =>
    intro b hb
    rw [chunkList] at hb
    simp only [dif_neg h, dif_neg hx, List.mem_cons] at hb
    rcases hb with rfl | hb
    · simpa using List.length_take_le B x
    · exact ih b hb

theorem ceil_step (L B : Nat) (hB : B ≠ 0) (hL : L ≠ 0) :
    (L - B + B - 1) / B + 1 = (L + B - 1) / B := by
  have hBpos : 0 < B := Nat.pos_of_ne_zero hB
  have hr : L + B - 1 = (L - 1) + B := by omega
  rw [hr, Nat.add_div_right _ hBpos]
  rcases Nat.lt_or_ge L B with h | h
  · have h1 : L - B + B - 1 = B - 1 := by omega
    rw [h1, Nat.div_eq_of_lt (by omega), Nat.div_eq_of_lt (by omega)]
  · have h1 : L - B + B - 1 = L - 1 := by omega
    rw [h1]

theorem chunkList_length (B : Nat) (hB : B ≠ 0) (pts : List Point) :
    (chunkList B pts).length = (pts.length + B - 1) / B := by
  induction pts using chunkList.induct B with
  | case1 x h => exact absurd h hB
  | case2 h =>
    have h0 : (B - 1) / B = 0 := Nat.div_eq_of_lt (by omega)
    simp [chunkList, h0]
  | case3 x h hx ih =>
    rw [chunkList]
    simp only [dif_neg h, dif_neg hx, List.length_cons]
    rw [ih]
    simp only [List.length_drop]
    exact ceil_step x.length B hB
      (fun hz => hx (List.eq_nil_of_length_eq_zero hz))

theorem chunkList_all (pts : List Point) (hne : pts ≠ []) :
    chunkList pts.length pts = [pts] := by
  rw [chunkList]
  rw [dif_neg (fun hz : pts.length = 0 => hne (List.eq_nil_of_length_eq_zero hz))]
  rw [dif_neg hne]
  simp [chunkList]

/-! ### Write-loop lemmas -/

theorem writeLoop_ok_iff (writeOk : Nat → Bool) :
    ∀ (bs : List (List Point)) (i : Nat),
    ((writeLoop writeOk i bs).ok = true ↔ ∀ j, j < bs.length → writeOk (i + j) = true) := by
  intro bs
  induction bs with
  | nil => intro i; simp [writeLoop]
  | cons b rest ih =>
    intro i
    by_cases h : writeOk i = true
    · simp only [writeLoop, if_pos h]
      rw [ih (i + 1)]
      constructor
      · intro hall j hj
        cases j with
        | zero => simpa using h
        | succ j' =>
          have hj' : j' < rest.length := by
            simpa [Nat.succ_lt_succ_iff] using hj
          have := hall j' hj'
          have heq : i + 1 + j' = i + (j' + 1) := by omega
          rwa [heq] at this
      · intro hall j hj
        have := hall (j + 1) (by simpa [Nat.succ_lt_succ_iff] using hj)
        have heq : i + (j + 1) = i + 1 + j := by omega
        rwa [heq] at this
    · apply iff_of_false
      · simp [writeLoop, if_neg h]
      · intro hall
        exact h (by simpa using hall 0 (by simp))

theorem writeLoop_all_ok (writeOk : Nat → Bool) :
    ∀ (bs : List (List Point)) (i : Nat),
    (∀ j, j < bs.length → writeOk (i + j) = true) →
    writeLoop writeOk i bs = ⟨List.range' i bs.length, bs.flatten, true⟩ := by
  intro bs
  induction bs with
  | nil => intro i _; simp [writeLoop, List.range']
  | cons b rest ih =>
    intro i h
    have h0 : writeOk i = true := by simpa using h 0 (by simp)
    simp only [writeLoop, if_pos h0]
    rw [ih (i + 1) (fun j hj => by
      have := h (j + 1) (by simpa [Nat.succ_lt_succ_iff] using hj)
      have heq : i + (j + 1) = i + 1 + j := by omega
      rwa [heq] at this)]
    simp [List.range'_succ]

theorem writeLoop_first_fail (writeOk : Nat → Bool) :
    ∀ (bs : List (List Point)) (i k : Nat), k < bs.length →
    (∀ j, j < k → writeOk (i + j) = true) → writeOk (i + k) = false →
    writeLoop writeOk i bs = ⟨List.range' i (k + 1), (bs.take k).flatten, false⟩ := by
  intro bs
  induction bs with
  | nil => intro i k hk _ _; simp at hk
  | cons b rest ih =>
    intro i k hk hpre hfail
    cases k with
    | zero =>
      have h0 : writeOk i = false := by simpa using hfail
      simp [writeLoop, h0, List.range']
    | succ k' =>
      have h0 : writeOk i = true := by simpa using hpre 0 (Nat.succ_pos k')
      simp only [writeLoop, if_pos h0]
      rw [ih (i + 1) k' (by simpa [Nat.succ_lt_succ_iff] using hk)
        (fun j hj => by
          have := hpre (j + 1) (Nat.succ_lt_succ hj)
          have heq : i + (j + 1) = i + 1 + j := by omega
          rwa [heq] at this)
        (by
          have heq : i + (k' + 1) = i + 1 + k' := by omega
          rwa [heq] at hfail)]
      simp [List.range'_succ, List.take_succ_cons]

theorem sendBatches_pos (r : Reporter) (hB : 0 < r.maxBatchSize)
    (pts : List Point) :
    sendBatches r pts = chunkList r.maxBatchSize.toNat pts := by
  simp [sendBatches, not_le.mpr hB]

theorem toNat_ne_zero_of_pos (n : Int) (h : 0 < n) : n.toNat ≠ 0 := by
  omega

theorem chunkList_nil (B : Nat) : chunkList B [] = [] := by
  rw [chunkList]
  split
  · rfl
  · simp

/-! ### Tick-level translator characterizations -/

theorem taggedFields_hist (r : Reporter) (name : String) (t : Nat)
    (cnt mx mn : Int) (mean sd va : ℚ) (ps : List ℚ) :
    taggedFields (sendPoints r [(name, Metric.histogram cnt mx mean mn sd va ps)] t)
      = (histogramFields cnt mx mean mn sd va ps).map
          (fun kv => (some kv.1, [(name ++ "." ++ "histogram", FieldValue.f kv.2)])) := by
  have h := expandFields_tagged r.measurement "histogram" name 0 (alignedNow r t)
    (histogramFields cnt mx mean mn sd va ps) ⟨[r.tags]⟩
  simpa [taggedFields, sendPoints, metricPoints, pointBucket, pointTags] using h

theorem taggedFields_timer (r : Reporter) (name : String) (t : Nat)
    (cnt mx mn : Int) (mean sd va r1 r5 rm : ℚ) (ps : List ℚ) :
    taggedFields (sendPoints r
        [(name, Metric.timer cnt mx mean mn sd va ps r1 r5 rm)] t)
      = (timerFields cnt mx mean mn sd va ps r1 r5 rm).map
          (fun kv => (some kv.1, [(name ++ "." ++ "timer", FieldValue.f kv.2)])) := by
  have h := expandFields_tagged r.measurement "timer" name 0 (alignedNow r t)
    (timerFields cnt mx mean mn sd va ps r1 r5 rm) ⟨[r.tags]⟩
  simpa [taggedFields, sendPoints, metricPoints, pointBucket, pointTags] using h

/-! ## Claim theorems -/

/-- C1, counterexample: the claim fails for Counter (and Gauge/GaugeFloat)
points.  With base tags `[("host","a")]` and a registry holding one
counter, the single emitted point's tag reference is address 0 — the
Reporter's shared base tag map itself — and writing a `bucket` entry
through the point's tag reference changes the base map. -/
theorem c1_counter_point_aliases_base :
    ((sendPoints exReporter exCounterReg 0).2.getD 0 default).tagsAddr = 0
    ∧ ((sendPoints exReporter exCounterReg 0).1.insertTag
          ((sendPoints exReporter exCounterReg 0).2.getD 0 default).tagsAddr
          "bucket" "x").get 0
      ≠ (sendPoints exReporter exCounterReg 0).1.get 0 := by
  decide

/-- C1, amended: mutating the tag set of any point holding a *freshly
allocated* tag map (a nonzero store address) leaves the base tag map at
address 0 unchanged; the points of the `bucketTags` kinds
(Histogram/Meter/Timer) always hold such fresh addresses, while
Counter/Gauge/GaugeFloat64 points store the base address itself (Go
`Tags: r.tags`), i.e. alias the shared base tag map. -/
theorem c1_fresh_tag_copies :
    (∀ (r : Reporter) (reg : List (String × Metric)) (t : Nat) (p : Point)
        (k v : String), p ∈ (sendPoints r reg t).2 → p.tagsAddr ≠ 0 →
        ((sendPoints r reg t).1.insertTag p.tagsAddr k v).get 0
          = (sendPoints r reg t).1.get 0)
    ∧ (∀ (meas : String) (now : Nat) (name : String) (m : Metric) (s : Store)
        (p : Point), m.usesBucketTags = true →
        p ∈ (metricPoints meas 0 now name m s).2 → s.maps.length ≤ p.tagsAddr)
    ∧ (∀ (meas : String) (now : Nat) (name : String) (m : Metric) (s : Store)
        (p : Point), m.usesBucketTags = false →
        p ∈ (metricPoints meas 0 now name m s).2 → p.tagsAddr = 0) := by
  refine ⟨?_, ?_, ?_⟩
  · intro r reg t p k v _ hne
    exact Store.get_insertTag_ne _ _ _ _ _ hne
  · intro meas now name m s p hm hp
    exact metricPoints_bucketed_addr meas 0 now name m s hm p hp
  · intro meas now name m s p hm hp
    exact metricPoints_unbucketed_addr meas 0 now name m s hm p hp

/-- C1, witness: the amended theorem applied to a meter point (store
address 1, a fresh copy), showing the base map survives a mutation. -/
theorem c1_fresh_tag_copies_witness :
    ((sendPoints exReporter exMeterReg 5).1.insertTag
        ((sendPoints exReporter exMeterReg 5).2.getD 0 default).tagsAddr
        "k" "v").get 0
      = (sendPoints exReporter exMeterReg 5).1.get 0 :=
  c1_fresh_tag_copies.1 exReporter exMeterReg 5
    ((sendPoints exReporter exMeterReg 5).2.getD 0 default) "k" "v"
    (by decide) (by decide)

/-- C6: with the align flag set and a positive interval, the captured
"now" is truncated to a multiple of the interval, so two ticks in the
same interval window get identical timestamps; every point of a tick
carries that timestamp; with the flag unset the wall-clock instant is
used untruncated. -/
theorem c6_timestamp_alignment (r : Reporter) (reg : List (String × Metric))
    (t t1 t2 : Nat) (hI : 0 < r.interval) :
    (r.align = true → t1 / r.interval.toNat = t2 / r.interval.toNat →
        alignedNow r t1 = alignedNow r t2)
    ∧ (∀ p ∈ (sendPoints r reg t).2, p.time = alignedNow r t)
    ∧ (r.align = true → r.interval.toNat ∣ alignedNow r t)
    ∧ (r.align = false → alignedNow r t = t) := by
  refine ⟨?_, sendPoints_time r reg t, ?_, ?_⟩
  · intro ha hdiv
    simp [alignedNow, ha, goTruncate, not_le.mpr hI, hdiv]
  · intro ha
    simp only [alignedNow, ha, if_pos, goTruncate, if_neg (not_le.mpr hI)]
    exact dvd_mul_left _ _
  · intro ha
    simp [alignedNow, ha]

/-- C6, witness: ticks at wall times 25 and 29 with interval 10 share the
truncated timestamp 20. -/
theorem c6_timestamp_alignment_witness :
    alignedNow exAlignReporter 25 = alignedNow exAlignReporter 29 :=
  (c6_timestamp_alignment exAlignReporter exCounterReg 25 25 29 (by decide)).1
    rfl (by decide)

/-- C7, counterexample: when the configured base tags themselves carry a
`bucket` entry, the Counter point (whose tag set is exactly the base
map) does carry a `bucket` tag, contradicting the claim's "no `bucket`
tag" conjunct. -/
theorem c7_counter_with_bucket_base :
    (sendPoints exBucketReporter exCounterReg 0).2.length = 1
    ∧ pointBucket (sendPoints exBucketReporter exCounterReg 0).1
        ((sendPoints exBucketReporter exCounterReg 0).2.getD 0 default)
      = some "z" := by
  decide

/-- C7, amended: a Counter named `name` with count `N` yields exactly one
point, whose single field is `<name>.count = N`, whose tag set is the
configured base tag map, and which therefore carries no `bucket` tag
whenever the base tags carry none. -/
theorem c7_counter_point (r : Reporter) (name : String) (N : Int) (t : Nat)
    (hb : r.tags.lookup "bucket" = none) :
    (sendPoints r [(name, Metric.counter N)] t).2
      = [{ measurement := r.measurement, tagsAddr := 0,
           fields := [(name ++ ".count", FieldValue.i N)],
           time := alignedNow r t }]
    ∧ pointTags (sendPoints r [(name, Metric.counter N)] t).1
        ((sendPoints r [(name, Metric.counter N)] t).2.getD 0 default) = r.tags
    ∧ pointBucket (sendPoints r [(name, Metric.counter N)] t).1
        ((sendPoints r [(name, Metric.counter N)] t).2.getD 0 default)
      = none := by
  refine ⟨?_, ?_, ?_⟩ <;>
    simp [sendPoints, metricPoints, pointTags, pointBucket, Store.get, hb]

/-- C7, witness: the amended theorem at a concrete counter registry. -/
theorem c7_counter_point_witness :
    pointBucket (sendPoints exReporter [("requests", Metric.counter 7)] 0).1
      ((sendPoints exReporter [("requests", Metric.counter 7)] 0).2.getD 0
        default) = none :=
  (c7_counter_point exReporter "requests" 7 0 (by decide)).2.2

/-- C9: a failed URL parse logs the parse error and never reaches the run
loop; a successful parse with a failed client construction logs the
client error and never reaches the run loop; only when both succeed is
the run loop entered. -/
theorem c9_construction_failures (b : Bool) :
    ((influxDBWithTags false b).loopStarted = false
      ∧ (influxDBWithTags false b).logs = ["unable to parse InfluxDB url"])
    ∧ ((influxDBWithTags true false).loopStarted = false
      ∧ (influxDBWithTags true false).logs
          = ["unable to make InfluxDB client"])
    ∧ (influxDBWithTags true true).loopStarted = true := by
  cases b <;> decide

/-- C10: `bucketTags(k, t)` builds a map agreeing with `t` everywhere
except that `"bucket"` is bound to `k` (overwriting any existing
`bucket` entry of `t`), and the result is a fresh allocation: its
address differs from `t`'s and the map at `t`'s address is unchanged. -/
theorem c10_bucketTags_spec (tm : TagMap) (k key : String) (s : Store)
    (a : Nat) (hnd : (tm.map Prod.fst).Nodup) (ha : a < s.maps.length) :
    ((bucketTagsMap k tm).lookup key
        = if key = "bucket" then some k else tm.lookup key)
    ∧ (bucketTags k a s).2 ≠ a
    ∧ (bucketTags k a s).1.get (bucketTags k a s).2 = bucketTagsMap k (s.get a)
    ∧ (bucketTags k a s).1.get a = s.get a := by
  refine ⟨?_, ?_, ?_, ?_⟩
  · unfold bucketTagsMap
    rw [copyInto_eq_self tm hnd, mapInsert_lookup]
  · simp only [bucketTags, Store.alloc]
    omega
  · exact Store.get_alloc_self s _
  · exact Store.get_alloc_lt s _ a ha

/-- C10, witness: concrete base map and store. -/
theorem c10_bucketTags_spec_witness :
    (bucketTags "p99" 0 ⟨[[("c", "d")]]⟩).1.get 0
      = (⟨[[("c", "d")]]⟩ : Store).get 0 :=
  (c10_bucketTags_spec [("host", "a")] "p99" "host" ⟨[[("c", "d")]]⟩ 0
    (by decide) (by decide)).2.2.2

/-- C2: percentile labeling is positional.  When the snapshot's
percentile computation at quantiles [0.5, 0.75, 0.95, 0.99] returns
[a, b, c, d], the histogram (resp. timer) translator emits
`bucket=p50` with value `a`, `bucket=p75` with `b`, `bucket=p95` with
`c` and `bucket=p99` with `d`, whatever the numeric order of a..d. -/
theorem c2_positional_percentiles (r : Reporter) (name : String) (t : Nat)
    (cnt mx mn : Int) (mean sd va a b c d r1 r5 rm : ℚ) :
    taggedFields (sendPoints r
        [(name, Metric.histogram cnt mx mean mn sd va [a, b, c, d])] t)
      = [(some "count", [(name ++ ".histogram", FieldValue.f (cnt : ℚ))]),
         (some "max", [(name ++ ".histogram", FieldValue.f (mx : ℚ))]),
         (some "mean", [(name ++ ".histogram", FieldValue.f mean)]),
         (some "min", [(name ++ ".histogram", FieldValue.f (mn : ℚ))]),
         (some "stddev", [(name ++ ".histogram", FieldValue.f sd)]),
         (some "variance", [(name ++ ".histogram", FieldValue.f va)]),
         (some "p50", [(name ++ ".histogram", FieldValue.f a)]),
         (some "p75", [(name ++ ".histogram", FieldValue.f b)]),
         (some "p95", [(name ++ ".histogram", FieldValue.f c)]),
         (some "p99", [(name ++ ".histogram", FieldValue.f d)])]
    ∧ taggedFields (sendPoints r
        [(name, Metric.timer cnt mx mean mn sd va [a, b, c, d] r1 r5 rm)] t)
      = [(some "count", [(name ++ ".timer", FieldValue.f (cnt : ℚ))]),
         (some "max", [(name ++ ".timer", FieldValue.f (mx : ℚ))]),
         (some "mean", [(name ++ ".timer", FieldValue.f mean)]),
         (some "min", [(name ++ ".timer", FieldValue.f (mn : ℚ))]),
         (some "stddev", [(name ++ ".timer", FieldValue.f sd)]),
         (some "variance", [(name ++ ".timer", FieldValue.f va)]),
         (some "p50", [(name ++ ".timer", FieldValue.f a)]),
         (some "p75", [(name ++ ".timer", FieldValue.f b)]),
         (some "p95", [(name ++ ".timer", FieldValue.f c)]),
         (some "p99", [(name ++ ".timer", FieldValue.f d)]),
         (some "m1", [(name ++ ".timer", FieldValue.f r1)]),
         (some "m5", [(name ++ ".timer", FieldValue.f r5)]),
         (some "meanrate", [(name ++ ".timer", FieldValue.f rm)])] := by
  constructor
  · rw [taggedFields_hist]
    simp [histogramFields, String.append_assoc]
  · rw [taggedFields_timer]
    simp [timerFields, String.append_assoc]

/-- C8: a histogram expands to exactly one point per field of
{count, max, mean, min, stddev, variance, p50, p75, p95, p99}, a timer
additionally to m1, m5 and meanrate; each point is tagged with its field
key as `bucket`, and no two points of the same metric share a bucket. -/
theorem c8_one_point_per_field (r : Reporter) (name : String) (t : Nat)
    (cnt mx mn : Int) (mean sd va r1 r5 rm : ℚ) (ps : List ℚ) :
    (taggedFields (sendPoints r
        [(name, Metric.histogram cnt mx mean mn sd va ps)] t)).map Prod.fst
      = [some "count", some "max", some "mean", some "min", some "stddev",
         some "variance", some "p50", some "p75", some "p95", some "p99"]
    ∧ ((taggedFields (sendPoints r
        [(name, Metric.histogram cnt mx mean mn sd va ps)] t)).map
          Prod.fst).Nodup
    ∧ (taggedFields (sendPoints r
        [(name, Metric.timer cnt mx mean mn sd va ps r1 r5 rm)] t)).map
          Prod.fst
      = [some "count", some "max", some "mean", some "min", some "stddev",
         some "variance", some "p50", some "p75", some "p95", some "p99",
         some "m1", some "m5", some "meanrate"]
    ∧ ((taggedFields (sendPoints r
        [(name, Metric.timer cnt mx mean mn sd va ps r1 r5 rm)] t)).map
          Prod.fst).Nodup := by
  have h1 : (taggedFields (sendPoints r
      [(name, Metric.histogram cnt mx mean mn sd va ps)] t)).map Prod.fst
      = [some "count", some "max", some "mean", some "min", some "stddev",
         some "variance", some "p50", some "p75", some "p95", some "p99"] := by
    rw [taggedFields_hist]
    simp [histogramFields]
  have h2 : (taggedFields (sendPoints r
      [(name, Metric.timer cnt mx mean mn sd va ps r1 r5 rm)] t)).map
        Prod.fst
      = [some "count", some "max", some "mean", some "min", some "stddev",
         some "variance", some "p50", some "p75", some "p95", some "p99",
         some "m1", some "m5", some "meanrate"] := by
    rw [taggedFields_timer]
    simp [timerFields]
  refine ⟨h1, ?_, h2, ?_⟩
  · rw [h1]; decide
  · rw [h2]; decide

/-- C3: with maxBatchSize B > 0, one tick's P points are cut into exactly
⌈P/B⌉ = (P + B - 1) / B contiguous batches of size at most B whose
concatenation is the original point sequence, and (when no write fails)
`client.Write` is called once per batch in sequence order. -/
theorem c3_batch_partition (r : Reporter) (reg : List (String × Metric))
    (t : Nat) (wOk : Nat → Bool) (hB : 0 < r.maxBatchSize) :
    ((sendBatches r (sendPoints r reg t).2).length
        = ((sendPoints r reg t).2.length + r.maxBatchSize.toNat - 1)
            / r.maxBatchSize.toNat)
    ∧ (∀ b ∈ sendBatches r (sendPoints r reg t).2,
        b.length ≤ r.maxBatchSize.toNat)
    ∧ (sendBatches r (sendPoints r reg t).2).flatten = (sendPoints r reg t).2
    ∧ ((∀ i, i < (sendBatches r (sendPoints r reg t).2).length →
          wOk i = true) →
        send r reg t wOk
          = ⟨List.range (sendBatches r (sendPoints r reg t).2).length,
             (sendPoints r reg t).2, true⟩) := by
  have hne := toNat_ne_zero_of_pos r.maxBatchSize hB
  have hflat : (sendBatches r (sendPoints r reg t).2).flatten
      = (sendPoints r reg t).2 := by
    simp only [sendBatches_pos r hB]
    exact chunkList_flatten _ hne _
  refine ⟨?_, ?_, hflat, ?_⟩
  · simp only [sendBatches_pos r hB]
    exact chunkList_length _ hne _
  · simp only [sendBatches_pos r hB]
    exact chunkList_sizes _ _
  · intro hall
    calc send r reg t wOk
        = writeLoop wOk 0 (sendBatches r (sendPoints r reg t).2) := rfl
      _ = ⟨List.range' 0 (sendBatches r (sendPoints r reg t).2).length,
           (sendBatches r (sendPoints r reg t).2).flatten, true⟩ :=
          writeLoop_all_ok wOk _ 0 (fun j hj => by simpa using hall j hj)
      _ = ⟨List.range (sendBatches r (sendPoints r reg t).2).length,
           (sendPoints r reg t).2, true⟩ := by
          rw [hflat, List.range_eq_range']

/-- C3, witness: three counter points with B = 2 give batches [2, 1]
whose concatenation is the original sequence. -/
theorem c3_batch_partition_witness :
    (sendBatches exBatch2Reporter
        (sendPoints exBatch2Reporter exThreeCounters 0).2).flatten
      = (sendPoints exBatch2Reporter exThreeCounters 0).2 :=
  (c3_batch_partition exBatch2Reporter exThreeCounters 0 (fun _ => true)
    (by decide)).2.2.1

/-- C4, counterexample: with maxBatchSize ≤ 0 and an empty point list the
loop bound becomes `len(pts) = 0`, so the write loop body never runs:
zero batch writes are issued, not the claimed "exactly one". -/
theorem c4_empty_tick_zero_writes :
    (send exReporter [] 0 (fun _ => true)).attempted = []
    ∧ (send exReporter [] 0 (fun _ => true)).attempted.length ≠ 1 := by
  have hb : sendBatches exReporter (sendPoints exReporter [] 0).2 = [] := by
    show chunkList _ _ = []
    exact chunkList_nil _
  have hsend : send exReporter [] 0 (fun _ => true) = ⟨[], [], true⟩ := by
    show writeLoop (fun _ => true) 0
        (sendBatches exReporter (sendPoints exReporter [] 0).2) = _
    rw [hb]
    rfl
  refine ⟨?_, ?_⟩ <;> rw [hsend] <;> decide

/-- C4, amended: with maxBatchSize ≤ 0, a tick accumulating at least one
point issues exactly one batch write carrying all points; a tick with no
points issues no write at all (and trivially succeeds). -/
theorem c4_single_batch (r : Reporter) (reg : List (String × Metric))
    (t : Nat) (wOk : Nat → Bool) (hB : r.maxBatchSize ≤ 0) :
    ((sendPoints r reg t).2 ≠ [] →
        sendBatches r (sendPoints r reg t).2 = [(sendPoints r reg t).2]
        ∧ (wOk 0 = true →
            send r reg t wOk = ⟨[0], (sendPoints r reg t).2, true⟩))
    ∧ ((sendPoints r reg t).2 = [] →
        send r reg t wOk = ⟨[], [], true⟩) := by
  constructor
  · intro hne
    have hb : sendBatches r (sendPoints r reg t).2
        = [(sendPoints r reg t).2] := by
      simp only [sendBatches, if_pos hB]
      exact chunkList_all _ hne
    refine ⟨hb, ?_⟩
    intro h0
    calc send r reg t wOk
        = writeLoop wOk 0 (sendBatches r (sendPoints r reg t).2) := rfl
      _ = writeLoop wOk 0 [(sendPoints r reg t).2] := by rw [hb]
      _ = ⟨[0], (sendPoints r reg t).2, true⟩ := by
          simp [writeLoop, h0]
  · intro hnil
    have hb : sendBatches r (sendPoints r reg t).2 = [] := by
      rw [hnil]
      simp [sendBatches, chunkList_nil]
    calc send r reg t wOk
        = writeLoop wOk 0 (sendBatches r (sendPoints r reg t).2) := rfl
      _ = writeLoop wOk 0 [] := by rw [hb]
      _ = ⟨[], [], true⟩ := rfl

/-- C4, witness: one counter point, maxBatchSize 0: a single write with
the whole point list. -/
theorem c4_single_batch_witness :
    send exReporter exCounterReg 0 (fun _ => true)
      = ⟨[0], (sendPoints exReporter exCounterReg 0).2, true⟩ :=
  ((c4_single_batch exReporter exCounterReg 0 (fun _ => true)
    (by decide)).1 (by decide)).2 rfl

/-- C5: fail-fast batch writing.  If the k-th batch write (0-indexed) is
the first to fail, exactly batches 0..k are attempted, send reports
failure, and the successfully written points are exactly the
concatenation of the first k batches (nothing is rolled back); send
succeeds iff every batch write succeeds. -/
theorem c5_fail_fast (r : Reporter) (reg : List (String × Metric)) (t : Nat)
    (wOk : Nat → Bool) (k : Nat)
    (hk : k < (sendBatches r (sendPoints r reg t).2).length)
    (hfail : wOk k = false) (hpre : ∀ j, j < k → wOk j = true) :
    (send r reg t wOk).attempted = List.range (k + 1)
    ∧ (send r reg t wOk).ok = false
    ∧ (send r reg t wOk).written
        = ((sendBatches r (sendPoints r reg t).2).take k).flatten
    ∧ ((send r reg t wOk).ok = true ↔
        ∀ i, i < (sendBatches r (sendPoints r reg t).2).length →
          wOk i = true) := by
  have hs : send r reg t wOk
      = ⟨List.range' 0 (k + 1),
         ((sendBatches r (sendPoints r reg t).2).take k).flatten, false⟩ :=
    writeLoop_first_fail wOk (sendBatches r (sendPoints r reg t).2) 0 k hk
      (fun j hj => by simpa using hpre j hj) (by simpa using hfail)
  refine ⟨?_, ?_, ?_, ?_⟩
  · rw [hs, List.range_eq_range']
  · rw [hs]
  · rw [hs]
  · have hiff := writeLoop_ok_iff wOk (sendBatches r (sendPoints r reg t).2) 0
    simpa using hiff

/-- C5, witness: three single-point batches where the second write fails:
batches 0 and 1 are attempted, batch 2 never is, and send fails. -/
theorem c5_fail_fast_witness :
    (send exBatch1Reporter exThreeCounters 0
        (fun i => decide (i = 0))).attempted = List.range 2 :=
  (c5_fail_fast exBatch1Reporter exThreeCounters 0 (fun i => decide (i = 0))
    1
    (by
      rw [sendBatches_pos exBatch1Reporter (by decide),
        chunkList_length _ (by decide)]
      decide)
    (by decide) (by decide)).1

end GoMetricsInfluxdb
